import Mathlib

/-!
Verification development for the LLM-DS plan-execution engine
(`data_cleaning/execution_agent`: `agent.py`, `state.py`, `metrics.py`,
`executor_tool.py`, and the deterministic sanitisation stage of
`code_writer.py`).

Python strings are modelled as `List Char` (`PyStr`); `str.strip`,
`str.splitlines`, `str.split` and `str.startswith` are given as executable
Lean functions with Python's semantics (only ASCII whitespace and the LF
line separator, which is all the engine ever feeds them).
-/

namespace LLMDS

/-- Python strings, modelled as lists of characters. -/
abbrev PyStr := List Char

/-- ASCII whitespace as recognised by Python's `str.strip` / `str.split`. -/
def pyIsSpace (c : Char) : Bool :=
  c = ' ' || c = '\t' || c = '\n' || c = '\x0d' || c = '\x0b' || c = '\x0c'

/-- Python `str.lstrip()`: drop leading whitespace. -/
def pyLStrip (s : PyStr) : PyStr := s.dropWhile pyIsSpace

/-- Python `str.rstrip()`: drop trailing whitespace (structural recursion). -/
def pyRStrip : PyStr → PyStr
  | [] => []
  | c :: cs =>
    match pyRStrip cs with
    | [] => if pyIsSpace c then [] else [c]
    | r => c :: r

/-- Python `str.strip()`: drop whitespace at both ends. -/
def pyStrip (s : PyStr) : PyStr := pyRStrip (pyLStrip s)

/-- Python `str.splitlines()` for LF-separated text: maximal `'\n'`-free
runs; the empty string yields no lines and a trailing `'\n'` opens no
final empty line. -/
def pySplitlines : PyStr → List PyStr
  | [] => []
  | c :: cs =>
    if c = '\n' then [] :: pySplitlines cs
    else
      match pySplitlines cs with
      | [] => [[c]]
      | l :: ls => (c :: l) :: ls

/-- Python `"\n".join(lines)`. -/
def joinLines : List PyStr → PyStr
  | [] => []
  | [a] => a
  | a :: b :: t => a ++ '\n' :: joinLines (b :: t)

/-- Python `s.startswith(p)`. -/
def pyStartsWith (s p : PyStr) : Bool := p.isPrefixOf s

/-- First occurrence of (non-empty) `sep` in `s`: the part before it and
the part after it, or `none` when `sep` does not occur. -/
def findSep (sep : PyStr) : PyStr → Option (PyStr × PyStr)
  | [] => if sep = [] then some ([], []) else none
  | c :: cs =>
    if sep.isPrefixOf (c :: cs) then some ([], (c :: cs).drop sep.length)
    else (findSep sep cs).map (fun p => (c :: p.1, p.2))

/-- Fuel-driven worker for `pySplit`; the fuel bounds the number of
separator occurrences, so `s.length + 1` is always enough for a
non-empty separator. -/
def pySplitGo (sep : PyStr) : Nat → PyStr → List PyStr
  | 0, s => [s]
  | fuel + 1, s =>
    match findSep sep s with
    | none => [s]
    | some (before, after) => before :: pySplitGo sep fuel after

/-- Python `s.split(sep)` for a non-empty separator. -/
def pySplit (sep s : PyStr) : List PyStr := pySplitGo sep (s.length + 1) s

/-- Python `str.lower()` restricted to ASCII, which is all the sanitiser
compares against. -/
def pyLower (s : PyStr) : PyStr := s.map Char.toLower

/-! ## Code sanitisation (`code_writer.py`, `generate_code_for_step`)

The LLM call itself is an external collaborator; the deterministic
post-processing of its response text is code under test. -/

/-- The three-backtick markdown fence. -/
def fenceChars : PyStr := "```".toList

/-- `code_writer.py`: if the stripped response starts with a markdown
fence, replace it by the stripped contents of the first fenced part
(`parts = code.split("```"); code = parts[1].strip()` when
`len(parts) >= 2`). -/
def stripFence (code : PyStr) : PyStr :=
  if pyStartsWith code fenceChars then
    let parts := pySplit fenceChars code
    if 2 ≤ parts.length then pyStrip (parts.getD 1 []) else code
  else code

/-- `code_writer.py`: remove a leading `python` language tag
(`if code.lower().startswith("python"): code = code[len("python"):].strip()`). -/
def stripLangTag (code : PyStr) : PyStr :=
  if pyStartsWith (pyLower code) ("python".toList) then
    pyStrip (code.drop 6)
  else code

/-- True when the line, stripped of surrounding whitespace, begins with
the token `import` — exactly the test `line.strip().startswith("import")`
used by the filter in `code_writer.py`. -/
def lineStartsImport (line : PyStr) : Bool :=
  pyStartsWith (pyStrip line) ("import".toList)

/-- `code_writer.py`: drop every line whose stripped form starts with
`import`, re-join with newlines and strip the result. -/
def stripImports (code : PyStr) : PyStr :=
  pyStrip (joinLines ((pySplitlines code).filter (fun l => !lineStartsImport l)))

/-- The full deterministic sanitisation `code_writer.py` applies to the
raw LLM response before returning: strip, markdown-fence extraction,
leading language tag removal, import-line filter.  (The source runs the
fence block twice on the re-read raw content; the net effect is this
single pipeline.) -/
def sanitizeCode (content : PyStr) : PyStr :=
  stripImports (stripLangTag (stripFence (pyStrip content)))

/-! ## Plan segmentation (`agent.py`, `load_plan_text`) -/

/-- The step-marker test of `load_plan_text`:
`line.strip().startswith("Step ")`. -/
def stepMarker (line : PyStr) : Bool := pyStartsWith (pyStrip line) ("Step ".toList)

/-- A buffered group of lines becomes one step string:
`"\n".join(buffer).strip()`. -/
def flushStep (buffer : List PyStr) : PyStr := pyStrip (joinLines buffer)

/-- The line loop of `load_plan_text`: on a marker line flush the buffer
(if non-empty) and restart it with the marker line; otherwise append the
line to the buffer; at the end flush the remaining buffer. -/
def planGo : List PyStr → List PyStr → List PyStr
  | [], buffer => if buffer = [] then [] else [flushStep buffer]
  | line :: rest, buffer =>
    if stepMarker line then
      (if buffer = [] then [] else [flushStep buffer]) ++ planGo rest [line]
    else planGo rest (buffer ++ [line])

/-- `agent.py` `load_plan_text`, after the file read: split the plan text
into lines and group them into step strings at the marker lines. -/
def load_plan_text (text : PyStr) : List PyStr := planGo (pySplitlines text) []

/-! ## Dataset snapshots

A pandas `DataFrame` is modelled as named columns plus rows of cells; a
cell is either missing (`none`, pandas `NaN`) or a value.  `len(df)` is
the row count, `df.isna().sum().sum()` the total missing-cell count and
`df.equals` structural equality. -/

/-- One cell: missing (`NaN`) or a value. -/
abbrev Cell := Option Int

/-- A dataset snapshot. -/
structure DataFrame where
  columns : List String
  rows : List (List Cell)
deriving DecidableEq, Repr

/-- `len(df)`: number of rows. -/
def DataFrame.nrows (df : DataFrame) : Nat := df.rows.length

/-- `df.isna().sum().sum()`: total count of missing cells. -/
def DataFrame.nullCount (df : DataFrame) : Nat :=
  (df.rows.map (fun r => r.countP (fun c => c = none))).sum

/-- `len(df.columns)`. -/
def DataFrame.ncols (df : DataFrame) : Nat := df.columns.length

/-! ## Impact metrics (`metrics.py`, `evaluate_step`) -/

/-- Round a rational to the nearest integer, ties to even — the rounding
Python's `round` applies. -/
def roundHalfEven (q : ℚ) : ℤ :=
  if q - ⌊q⌋ < 1 / 2 then ⌊q⌋
  else if 1 / 2 < q - ⌊q⌋ then ⌊q⌋ + 1
  else if ⌊q⌋ % 2 = 0 then ⌊q⌋ else ⌊q⌋ + 1

/-- Python `round(q, 2)`: round to two decimal places. -/
def round2 (q : ℚ) : ℚ := (roundHalfEven (q * 100) : ℚ) / 100

/-- `round(d / m * 100, 2)` for integer `d` and positive integer `m`,
computed in integer arithmetic and returned in hundredths: the rounding
of `10000 * d / m` to the nearest integer, ties to even.  (Executable
form of the `row_drop_pct` formula of `metrics.py`; the lemma
`pctCentis_eq_roundHalfEven` proves it equal to `roundHalfEven`, and
`row_drop_pct_spec` recovers the literal source formula.) -/
def pctCentis (d : ℤ) (m : ℕ) : ℤ :=
  let n := 10000 * d
  let q := n / (m : ℤ)
  let r := n % (m : ℤ)
  if 2 * r < (m : ℤ) then q
  else if (m : ℤ) < 2 * r then q + 1
  else if q % 2 = 0 then q else q + 1

/-- The metrics record produced by `evaluate_step`. -/
structure StepMetrics where
  rows_before : Nat
  rows_after : Nat
  rows_dropped : Int
  row_drop_pct : ℚ
  nulls_before : Nat
  nulls_after : Nat
  nulls_delta : Int
  columns_before : Nat
  columns_after : Nat
deriving DecidableEq, Repr

/-- `metrics.py` `evaluate_step`: compare a dataframe before and after a
cleaning step.  A total, pure function of the two snapshots. -/
def evaluate_step (before after : DataFrame) : StepMetrics where
  rows_before := before.nrows
  rows_after := after.nrows
  rows_dropped := (before.nrows : Int) - (after.nrows : Int)
  row_drop_pct :=
    Rat.divInt (pctCentis ((before.nrows : ℤ) - (after.nrows : ℤ)) (max before.nrows 1)) 100
  nulls_before := before.nullCount
  nulls_after := after.nullCount
  nulls_delta := (after.nullCount : Int) - (before.nullCount : Int)
  columns_before := before.ncols
  columns_after := after.ncols

/-! ## Sandboxed executor (`executor_tool.py`, `execute_cleaning_code`)

`exec(code, allowed_globals)` runs arbitrary untrusted Python; its
observable effect on the executor is abstracted as an `ExecEffect`:
either it raises (with a description) or it terminates leaving some
value — or no value at all — bound to `df` in the environment.  The
behaviour of a given code string on a given working copy is supplied by
the oracle modelling `exec`. -/

/-- A Python value as far as the executor's checks can see: a dataframe
or anything else. -/
inductive PyValue
  | dataframe (df : DataFrame)
  | other
deriving DecidableEq

/-- Outcome of `exec(code, allowed_globals)`: an exception with its
description, or normal termination with the final binding of `df`
(`none` when the code deleted it). -/
inductive ExecEffect
  | raises (msg : PyStr)
  | returns (dfBinding : Option PyValue)

/-- Result dictionary of `execute_cleaning_code`; `noop` is true exactly
when the tool reported `"noop": True`. -/
inductive ExecResult
  | error (msg : PyStr)
  | success (df : DataFrame) (noop : Bool)
deriving DecidableEq

/-- Is the result an error? (`result["status"] == "error"`). -/
def ExecResult.isError : ExecResult → Bool
  | .error _ => true
  | .success _ _ => false

/-- `executor_tool.py` `execute_cleaning_code`: run the generated code on
a working copy of `df`; error when the code raises, when `df` is no
longer bound afterwards, or when it is bound to a non-dataframe; success
otherwise, flagged `noop` when the result equals the pre-execution copy. -/
def execute_cleaning_code (run : DataFrame → ExecEffect) (df : DataFrame) : ExecResult :=
  let df_before := df
  match run df with
  | .raises msg => .error msg
  | .returns none => .error ("LLM code did not define `df`".toList)
  | .returns (some .other) => .error ("`df` is not a pandas DataFrame after execution".toList)
  | .returns (some (.dataframe new_df)) => .success new_df (new_df = df_before)

/-! ## Execution state (`state.py`, `ExecutionState`) -/

/-- Retry feedback threaded to the next code-generation call: either the
raw error description of a failed execution, or the rejection message
built from the row-drop percentage. -/
inductive Feedback
  | execError (msg : PyStr)
  | rowDropTooHigh (pct : ℚ)
deriving DecidableEq

/-- The `status` field of one history record. -/
inductive AttemptStatus
  | execution_error (error : PyStr)
  | accepted (metrics : StepMetrics)
  | rejected (metrics : StepMetrics)
deriving DecidableEq

/-- One history record appended by `state.record({...})` in `agent.py`. -/
structure HistoryRecord where
  step : Nat
  attempt : Nat
  status : AttemptStatus
  generated_code : PyStr
deriving DecidableEq

/-- `state.py` `ExecutionState`: the current dataset, the plan, the
cursor (`step_index`, `attempt`) and the append-only history. -/
structure ExecutionState where
  df : DataFrame
  plan : List PyStr
  step_index : Nat
  attempt : Nat
  history : List HistoryRecord
deriving DecidableEq

/-- `ExecutionState.__init__`: cursor at step 0, attempt 1, empty history. -/
def ExecutionState.init (df : DataFrame) (plan : List PyStr) : ExecutionState :=
  ⟨df, plan, 0, 1, []⟩

/-- `state.py` `advance_step`: `step_index += 1; attempt = 1`. -/
def ExecutionState.advance_step (s : ExecutionState) : ExecutionState :=
  { s with step_index := s.step_index + 1, attempt := 1 }

/-- `state.py` `record`: append to history. -/
def ExecutionState.record (s : ExecutionState) (r : HistoryRecord) : ExecutionState :=
  { s with history := s.history ++ [r] }

/-- `state.py` `has_more_steps`. -/
def ExecutionState.has_more_steps (s : ExecutionState) : Bool :=
  s.step_index < s.plan.length

/-- `state.py` `current_step` (total variant; the loop only calls it
under `has_more_steps`). -/
def ExecutionState.current_step (s : ExecutionState) : PyStr :=
  s.plan.getD s.step_index []

/-! ## The controller loop (`agent.py`, `run_execution_agent`)

The two external collaborators are an oracle: `llmContent` is the raw
LLM response for (step text, dataset sample, feedback) and `runCode` is
the `exec` semantics of a given code string on a given working copy. -/

/-- The external collaborators of one run. -/
structure Oracle where
  llmContent : PyStr → DataFrame → Option Feedback → PyStr
  runCode : PyStr → DataFrame → ExecEffect

/-- `code_writer.py` `generate_code_for_step`: the LLM response for the
step, passed through the deterministic sanitisation pipeline. -/
def generate_code_for_step (o : Oracle) (step_text : PyStr) (df_sample : DataFrame)
    (feedback : Option Feedback) : PyStr :=
  sanitizeCode (o.llmContent step_text df_sample feedback)

/-- `MAX_RETRIES` in `agent.py`. -/
def MAX_RETRIES : Nat := 5

/-- Outcome of one attempt body: step accepted (loop exit with
`success = True`) or failed (execution error or rejection), carrying the
feedback for the next attempt and the updated state. -/
inductive AttemptOut
  | ok (s : ExecutionState)
  | fail (err : Feedback) (s : ExecutionState)
deriving DecidableEq

/-- One iteration of the inner attempt loop of `run_execution_agent`:
generate code, execute it on the current dataset, and either commit the
result (acceptance), or record a rejection / execution error and
increment the attempt counter. -/
def attemptOnce (o : Oracle) (step_text : PyStr) (step_number : Nat)
    (last_error : Option Feedback) (s : ExecutionState) : AttemptOut :=
  let before_df := s.df
  let code := generate_code_for_step o step_text s.df last_error
  match execute_cleaning_code (o.runCode code) s.df with
  | .error msg =>
    .fail (.execError msg)
      { s.record ⟨step_number, s.attempt, .execution_error msg, code⟩ with
        attempt := s.attempt + 1 }
  | .success after_df _ =>
    let metrics := evaluate_step before_df after_df
    if metrics.row_drop_pct ≤ 10 then
      .ok { s.record ⟨step_number, s.attempt, .accepted metrics, code⟩ with df := after_df }
    else
      .fail (.rowDropTooHigh metrics.row_drop_pct)
        { s.record ⟨step_number, s.attempt, .rejected metrics, code⟩ with
          attempt := s.attempt + 1 }

/-- The fatal message of `agent.py`:
`RuntimeError(f"Step {step_number} failed after {MAX_RETRIES} retries")`. -/
def fatalMsg (step_number : Nat) : PyStr :=
  ("Step " ++ toString step_number ++ " failed after " ++ toString MAX_RETRIES
    ++ " retries").toList

/-- The inner `while state.attempt <= MAX_RETRIES and not success` loop,
driven by fuel.  The fuel counts the attempts still allowed, i.e.
`MAX_RETRIES + 1 - state.attempt`: every `fail` outcome increments
`attempt` by exactly one, so fuel 0 is reached exactly when
`attempt > MAX_RETRIES`, where the source raises `RuntimeError`.  The
error value carries the message and the state at the raise. -/
def stepLoopFuel (o : Oracle) (step_text : PyStr) (step_number : Nat) :
    Nat → Option Feedback → ExecutionState →
    Except (PyStr × ExecutionState) ExecutionState
  | 0, _, s => .error (fatalMsg step_number, s)
  | fuel + 1, last_error, s =>
    match attemptOnce o step_text step_number last_error s with
    | .ok s' => .ok s'
    | .fail err s' => stepLoopFuel o step_text step_number fuel (some err) s'

/-- The attempt loop for one step, entered with `last_error = None`. -/
def stepLoop (o : Oracle) (step_text : PyStr) (step_number : Nat)
    (s : ExecutionState) : Except (PyStr × ExecutionState) ExecutionState :=
  stepLoopFuel o step_text step_number (MAX_RETRIES + 1 - s.attempt) none s

/-- The outer `while state.has_more_steps()` loop, driven by fuel
(`plan.length - step_index` steps remain).  On acceptance the state
advances to the next step; a fatal step failure aborts the whole run. -/
def runStepsFuel (o : Oracle) :
    Nat → ExecutionState → Except (PyStr × ExecutionState) ExecutionState
  | 0, s => .ok s
  | fuel + 1, s =>
    match stepLoop o s.current_step (s.step_index + 1) s with
    | .error e => .error e
    | .ok s' => runStepsFuel o fuel s'.advance_step

/-- `agent.py` `run_execution_agent` after the dataset/plan reads: build
the initial state from the parsed plan and walk every step.  `.ok`
carries the final state whose dataset the source then persists; `.error`
models the `RuntimeError` raise, after which nothing is persisted. -/
def run_execution_agent (o : Oracle) (df : DataFrame) (plan_text : PyStr) :
    Except (PyStr × ExecutionState) ExecutionState :=
  let plan := load_plan_text plan_text
  let state := ExecutionState.init df plan
  runStepsFuel o plan.length state

/-- Effect of `lstrip` on a line list: skip leading all-whitespace lines
and left-strip the first kept line. -/
def lstripLines : List PyStr → List PyStr
  | [] => []
  | l :: rest => if pyLStrip l = [] then lstripLines rest else pyLStrip l :: rest

/-- Effect of `rstrip` on a line list: drop trailing all-whitespace lines
and right-strip the last kept line. -/
def rstripLines : List PyStr → List PyStr
  | [] => []
  | l :: rest =>
    match rstripLines rest with
    | [] => if pyRStrip l = [] then [] else [pyRStrip l]
    | r => l :: r

/-- No line of the text begins, after stripping surrounding whitespace,
with the token `import`. -/
def noImportLines (s : PyStr) : Bool :=
  (pySplitlines s).all (fun l => !lineStartsImport l)

/-- Modelled from the spec's words, for stating C8 only: a Python
*import statement* is either an `import ...` statement or a
`from ... import ...` statement (its stripped line starts with `import`,
or starts with `from ` and contains ` import `). -/
def isImportStatement (line : PyStr) : Bool :=
  pyStartsWith (pyStrip line) ("import".toList) ||
  (pyStartsWith (pyStrip line) ("from ".toList) &&
    (findSep (" import ".toList) (pyStrip line)).isSome)

/-! ## Concrete fixtures for the witnesses -/

/-- A small dataset: 2 columns, 3 rows, 2 missing cells. -/
def testDf : DataFrame :=
  ⟨["a", "b"], [[some 1, none], [some 2, some 3], [none, some 4]]⟩

/-- `testDf` with one of its three rows dropped (a 33.33 % row drop). -/
def testDfDropped : DataFrame :=
  ⟨["a", "b"], [[some 1, none], [some 2, some 3]]⟩

/-- A dataset with more rows than `testDf` but fewer columns and more
missing cells. -/
def grownDf : DataFrame := ⟨["a"], [[none], [none], [none], [none]]⟩

/-- A step text used by the witnesses. -/
def stepTextX : PyStr := "Step 1: clean".toList

/-- Oracle whose generated code leaves the dataframe unchanged. -/
def noopOracle : Oracle :=
  ⟨fun _ _ _ => "df = df".toList, fun _ df => .returns (some (.dataframe df))⟩

/-- Oracle whose generated code always raises. -/
def raiseOracle : Oracle :=
  ⟨fun _ _ _ => "raise ValueError".toList, fun _ _ => .raises ("boom".toList)⟩

/-- Oracle whose generated code returns `grownDf` regardless of input. -/
def growOracle : Oracle :=
  ⟨fun _ _ _ => "df = grow(df)".toList, fun _ _ => .returns (some (.dataframe grownDf))⟩

/-! ## Lemmas about the string model -/

lemma dropWhile_idem (p : Char → Bool) (l : List Char) :
    List.dropWhile p (List.dropWhile p l) = List.dropWhile p l := by
  induction l with
  | nil => rfl
  | cons c cs ih =>
    by_cases h : p c
    · simp [List.dropWhile_cons, h, ih]
    · simp [List.dropWhile_cons, h]

lemma pyRStrip_cons (c : Char) (l : PyStr) :
    pyRStrip (c :: l) =
      (match pyRStrip l with
       | [] => if pyIsSpace c then [] else [c]
       | r => c :: r) := rfl

lemma pyRStrip_append (a b : PyStr) :
    pyRStrip (a ++ b) = if pyRStrip b = [] then pyRStrip a else a ++ pyRStrip b := by
  induction a with
  | nil =>
    by_cases h : pyRStrip b = [] <;> simp [h, pyRStrip]
  | cons c a' ih =>
    rw [List.cons_append, pyRStrip_cons, ih, List.cons_append]
    by_cases h : pyRStrip b = []
    · rw [if_pos h, if_pos h, pyRStrip_cons]
    · rw [if_neg h, if_neg h]
      cases hx : a' ++ pyRStrip b with
      | nil => exact absurd (List.append_eq_nil.mp hx).2 h
      | cons y ys => rfl

lemma pyRStrip_mem {c : Char} {l : PyStr} (h : c ∈ pyRStrip l) : c ∈ l := by
  induction l with
  | nil => simp [pyRStrip] at h
  | cons d l' ih =>
    rw [pyRStrip_cons] at h
    cases hx : pyRStrip l' with
    | nil =>
      rw [hx] at h
      by_cases hd : pyIsSpace d
      · simp [hd] at h
      · simp only [if_neg hd, List.mem_singleton] at h
        simp [h]
    | cons y ys =>
      rw [hx] at h
      rcases List.mem_cons.mp h with h1 | h2
      · simp [h1]
      · exact List.mem_cons_of_mem _ (ih (hx ▸ h2))

lemma pyRStrip_idem (l : PyStr) : pyRStrip (pyRStrip l) = pyRStrip l := by
  induction l with
  | nil => rfl
  | cons c l' ih =>
    rw [pyRStrip_cons]
    cases hx : pyRStrip l' with
    | nil =>
      by_cases hc : pyIsSpace c
      · simp [hc, pyRStrip]
      · simp [hc, pyRStrip]
    | cons y ys =>
      rw [hx] at ih
      simp only [pyRStrip_cons, ih]

lemma pyLStrip_cons_of_space {c : Char} (l : PyStr) (hc : pyIsSpace c) :
    pyLStrip (c :: l) = pyLStrip l := by
  simp [pyLStrip, List.dropWhile_cons, hc]

lemma pyLStrip_cons_of_not_space {c : Char} (l : PyStr) (hc : ¬ pyIsSpace c) :
    pyLStrip (c :: l) = c :: l := by
  simp [pyLStrip, List.dropWhile_cons, hc]

lemma lstrip_rstrip_comm (l : PyStr) :
    pyLStrip (pyRStrip l) = pyRStrip (pyLStrip l) := by
  induction l with
  | nil => rfl
  | cons c l' ih =>
    by_cases hc : pyIsSpace c
    · rw [pyLStrip_cons_of_space _ hc, ← ih, pyRStrip_cons]
      cases hx : pyRStrip l' with
      | nil => simp [hc, pyLStrip]
      | cons y ys => simp [pyLStrip, List.dropWhile_cons, hc]
    · rw [pyLStrip_cons_of_not_space _ hc, pyRStrip_cons]
      cases hx : pyRStrip l' with
      | nil =>
        simp only [if_neg hc]
        simp [pyLStrip, List.dropWhile_cons, hc]
      | cons y ys =>
        simp [pyLStrip, List.dropWhile_cons, hc]

lemma pyStrip_eq_lstrip_rstrip (l : PyStr) : pyStrip l = pyLStrip (pyRStrip l) := by
  rw [pyStrip, lstrip_rstrip_comm]

lemma pyStrip_lstrip (l : PyStr) : pyStrip (pyLStrip l) = pyStrip l := by
  simp only [pyStrip, pyLStrip, dropWhile_idem]

lemma pyStrip_rstrip (l : PyStr) : pyStrip (pyRStrip l) = pyStrip l := by
  rw [pyStrip, lstrip_rstrip_comm, pyRStrip_idem, ← pyStrip]

lemma pyStrip_idem (l : PyStr) : pyStrip (pyStrip l) = pyStrip l := by
  rw [show pyStrip (pyStrip l) = pyStrip (pyRStrip (pyLStrip l)) from rfl,
    pyStrip_rstrip, pyStrip_lstrip]

lemma pyStrip_append_newline (x : PyStr) : pyStrip (x ++ ['\n']) = pyStrip x := by
  rw [pyStrip_eq_lstrip_rstrip, pyStrip_eq_lstrip_rstrip, pyRStrip_append]
  simp [pyRStrip, pyIsSpace]

lemma pySplitlines_cons (c : Char) (cs : PyStr) :
    pySplitlines (c :: cs) =
      if c = '\n' then [] :: pySplitlines cs
      else
        match pySplitlines cs with
        | [] => [[c]]
        | l :: ls => (c :: l) :: ls := rfl

lemma pySplitlines_ne_nil {s : PyStr} (h : s ≠ []) : pySplitlines s ≠ [] := by
  cases s with
  | nil => exact absurd rfl h
  | cons c cs =>
    rw [pySplitlines_cons]
    by_cases hc : c = '\n'
    · simp [hc]
    · rw [if_neg hc]
      cases pySplitlines cs <;> simp

lemma no_newline_mem_splitlines {s : PyStr} {l : PyStr}
    (h : l ∈ pySplitlines s) : '\n' ∉ l := by
  induction s generalizing l with
  | nil => simp [pySplitlines] at h
  | cons c cs ih =>
    rw [pySplitlines_cons] at h
    by_cases hc : c = '\n'
    · rw [if_pos hc] at h
      rcases List.mem_cons.mp h with h1 | h2
      · simp [h1]
      · exact ih h2
    · rw [if_neg hc] at h
      cases hx : pySplitlines cs with
      | nil =>
        rw [hx] at h
        simp only [List.mem_singleton] at h
        simp only [h, List.mem_singleton]
        exact fun hcc => hc hcc.symm
      | cons y ys =>
        rw [hx] at h
        rcases List.mem_cons.mp h with h1 | h2
        · subst h1
          intro hmem
          rcases List.mem_cons.mp hmem with h3 | h4
          · exact hc h3.symm
          · exact ih (hx ▸ List.mem_cons_self y ys) h4
        · exact ih (hx ▸ List.mem_cons_of_mem y h2)

lemma pySplitlines_no_newline {a : PyStr} (h : '\n' ∉ a) :
    pySplitlines a = if a = [] then [] else [a] := by
  induction a with
  | nil => rfl
  | cons c cs ih =>
    have hc : c ≠ '\n' := fun hcc => h (hcc ▸ List.mem_cons_self c cs)
    have hcs : '\n' ∉ cs := fun hm => h (List.mem_cons_of_mem c hm)
    rw [pySplitlines_cons, if_neg hc, ih hcs]
    by_cases hnil : cs = [] <;> simp [hnil]

lemma pySplitlines_append_newline {a : PyStr} (t : PyStr) (h : '\n' ∉ a) :
    pySplitlines (a ++ '\n' :: t) = a :: pySplitlines t := by
  induction a with
  | nil => simp [pySplitlines_cons]
  | cons c cs ih =>
    have hc : c ≠ '\n' := fun hcc => h (hcc ▸ List.mem_cons_self c cs)
    have hcs : '\n' ∉ cs := fun hm => h (List.mem_cons_of_mem c hm)
    rw [List.cons_append, pySplitlines_cons, if_neg hc, ih hcs]

lemma joinLines_cons (a : PyStr) {ls : List PyStr} (h : ls ≠ []) :
    joinLines (a :: ls) = a ++ '\n' :: joinLines ls := by
  cases ls with
  | nil => exact absurd rfl h
  | cons b t => rfl

lemma mem_splitlines_joinLines {ls : List PyStr}
    (hnf : ∀ l ∈ ls, '\n' ∉ l) {x : PyStr}
    (hx : x ∈ pySplitlines (joinLines ls)) : x ∈ ls := by
  induction ls with
  | nil => simp [joinLines, pySplitlines] at hx
  | cons a rest ih =>
    cases hrest : rest with
    | nil =>
      subst hrest
      rw [show joinLines [a] = a from rfl,
        pySplitlines_no_newline (hnf a (List.mem_cons_self a []))] at hx
      by_cases ha : a = []
      · simp [ha] at hx
      · rw [if_neg ha] at hx
        simpa using hx
    | cons b t =>
      subst hrest
      rw [joinLines_cons a (by simp),
        pySplitlines_append_newline _ (hnf a (List.mem_cons_self a _))] at hx
      rcases List.mem_cons.mp hx with h1 | h2
      · simp [h1]
      · exact List.mem_cons_of_mem a (ih (fun l hl => hnf l (List.mem_cons_of_mem a hl)) h2)

lemma pyLStrip_joinLines (ls : List PyStr) :
    pyLStrip (joinLines ls) = joinLines (lstripLines ls) := by
  induction ls with
  | nil => rfl
  | cons a rest ih =>
    cases hrest : rest with
    | nil =>
      subst hrest
      rw [show joinLines [a] = a from rfl, lstripLines]
      by_cases ha : pyLStrip a = [] <;> simp [ha, joinLines]
    | cons b t =>
      subst hrest
      rw [joinLines_cons a (by simp), lstripLines]
      by_cases ha : pyLStrip a = []
      · rw [if_pos ha, ← ih]
        have h1 : pyLStrip (a ++ '\n' :: joinLines (b :: t)) =
            pyLStrip ('\n' :: joinLines (b :: t)) := by
          simp only [pyLStrip] at ha ⊢
          rw [List.dropWhile_append]
          simp [ha]
        rw [h1, pyLStrip_cons_of_space _ (by simp [pyIsSpace])]
      · rw [if_neg ha,
          joinLines_cons (pyLStrip a) (show (b :: t : List PyStr) ≠ [] by simp)]
        simp only [pyLStrip] at ha ⊢
        rw [List.dropWhile_append]
        have : (List.dropWhile pyIsSpace a).isEmpty = false := by
          cases hx : List.dropWhile pyIsSpace a with
          | nil => exact absurd hx ha
          | cons y ys => rfl
        simp only [this, Bool.false_eq_true, if_false]

lemma joinLines_rstripLines_nil_iff (ls : List PyStr) :
    joinLines (rstripLines ls) = [] ↔ rstripLines ls = [] := by
  induction ls with
  | nil => simp [rstripLines, joinLines]
  | cons a rest ih =>
    rw [rstripLines]
    cases hx : rstripLines rest with
    | nil =>
      by_cases ha : pyRStrip a = [] <;> simp [ha, joinLines]
    | cons y ys =>
      rw [joinLines_cons a (by simp)]
      simp

lemma pyRStrip_joinLines (ls : List PyStr) :
    pyRStrip (joinLines ls) = joinLines (rstripLines ls) := by
  induction ls with
  | nil => rfl
  | cons a rest ih =>
    cases hrest : rest with
    | nil =>
      subst hrest
      rw [show joinLines [a] = a from rfl, rstripLines]
      by_cases ha : pyRStrip a = [] <;> simp [ha, joinLines, rstripLines]
    | cons b t =>
      subst hrest
      rw [joinLines_cons a (by simp), rstripLines]
      have hnl : pyRStrip ('\n' :: joinLines (b :: t)) =
          if pyRStrip (joinLines (b :: t)) = [] then []
          else '\n' :: pyRStrip (joinLines (b :: t)) := by
        rw [pyRStrip_cons]
        cases hx : pyRStrip (joinLines (b :: t)) with
        | nil => simp [pyIsSpace]
        | cons y ys => simp
      rw [show a ++ '\n' :: joinLines (b :: t) = a ++ ('\n' :: joinLines (b :: t)) from rfl,
        pyRStrip_append, hnl, ih]
      by_cases hz : rstripLines (b :: t) = []
      · have hj : joinLines (rstripLines (b :: t)) = [] :=
          (joinLines_rstripLines_nil_iff (b :: t)).mpr hz
        rw [hz] at hj ⊢
        simp only [hj, joinLines, if_pos rfl]
        by_cases ha : pyRStrip a = [] <;> simp [ha, joinLines]
      · have hj : joinLines (rstripLines (b :: t)) ≠ [] :=
          fun hc => hz ((joinLines_rstripLines_nil_iff (b :: t)).mp hc)
        cases hx : rstripLines (b :: t) with
        | nil => exact absurd hx hz
        | cons y ys =>
          rw [hx] at hj
          simp only [if_neg hj]
          rw [if_neg (show ('\n' :: joinLines (y :: ys)) ≠ [] by simp)]
          show _ = joinLines (a :: y :: ys)
          rw [joinLines_cons a (show (y :: ys : List PyStr) ≠ [] by simp)]

lemma mem_lstripLines {ls : List PyStr} {x : PyStr} (h : x ∈ lstripLines ls) :
    ∃ y ∈ ls, pyStrip x = pyStrip y := by
  induction ls with
  | nil => simp [lstripLines] at h
  | cons a rest ih =>
    rw [lstripLines] at h
    by_cases ha : pyLStrip a = []
    · rw [if_pos ha] at h
      obtain ⟨y, hy, he⟩ := ih h
      exact ⟨y, List.mem_cons_of_mem a hy, he⟩
    · rw [if_neg ha] at h
      rcases List.mem_cons.mp h with h1 | h2
      · exact ⟨a, List.mem_cons_self a rest, h1 ▸ pyStrip_lstrip a⟩
      · exact ⟨x, List.mem_cons_of_mem a h2, rfl⟩

lemma mem_rstripLines {ls : List PyStr} {x : PyStr} (h : x ∈ rstripLines ls) :
    ∃ y ∈ ls, pyStrip x = pyStrip y := by
  induction ls with
  | nil => simp [rstripLines] at h
  | cons a rest ih =>
    rw [rstripLines] at h
    cases hx : rstripLines rest with
    | nil =>
      rw [hx] at h
      by_cases ha : pyRStrip a = []
      · simp [ha] at h
      · rw [if_neg ha] at h
        simp only [List.mem_singleton] at h
        exact ⟨a, List.mem_cons_self a rest, h ▸ pyStrip_rstrip a⟩
    | cons y ys =>
      rw [hx] at h
      rcases List.mem_cons.mp h with h1 | h2
      · exact ⟨a, List.mem_cons_self a rest, by rw [h1]⟩
      · obtain ⟨z, hz, he⟩ := ih (hx ▸ h2)
        exact ⟨z, List.mem_cons_of_mem a hz, he⟩

lemma no_newline_lstripLines {ls : List PyStr} (hnf : ∀ l ∈ ls, '\n' ∉ l) :
    ∀ x ∈ lstripLines ls, '\n' ∉ x := by
  induction ls with
  | nil => simp [lstripLines]
  | cons a rest ih =>
    intro x hx
    rw [lstripLines] at hx
    by_cases ha : pyLStrip a = []
    · rw [if_pos ha] at hx
      exact ih (fun l hl => hnf l (List.mem_cons_of_mem a hl)) x hx
    · rw [if_neg ha] at hx
      rcases List.mem_cons.mp hx with h1 | h2
      · subst h1
        intro hm
        exact hnf a (List.mem_cons_self a rest)
          ((List.dropWhile_sublist pyIsSpace).subset hm)
      · exact hnf x (List.mem_cons_of_mem a h2)

lemma no_newline_rstripLines {ls : List PyStr} (hnf : ∀ l ∈ ls, '\n' ∉ l) :
    ∀ x ∈ rstripLines ls, '\n' ∉ x := by
  induction ls with
  | nil => simp [rstripLines]
  | cons a rest ih =>
    intro x hx
    rw [rstripLines] at hx
    cases hy : rstripLines rest with
    | nil =>
      rw [hy] at hx
      by_cases ha : pyRStrip a = []
      · simp [ha] at hx
      · rw [if_neg ha] at hx
        simp only [List.mem_singleton] at hx
        subst hx
        exact fun hm => hnf a (List.mem_cons_self a rest) (pyRStrip_mem hm)
    | cons y ys =>
      rw [hy] at hx
      rcases List.mem_cons.mp hx with h1 | h2
      · exact h1 ▸ hnf a (List.mem_cons_self a rest)
      · exact ih (fun l hl => hnf l (List.mem_cons_of_mem a hl)) x (hy ▸ h2)

/-- The text/line round trip: joining the split lines recovers the text
up to one trailing newline. -/
lemma joinLines_pySplitlines (text : PyStr) :
    text = joinLines (pySplitlines text) ∨
    text = joinLines (pySplitlines text) ++ ['\n'] := by
  induction text with
  | nil => left; rfl
  | cons c cs ih =>
    by_cases hc : c = '\n'
    · subst hc
      rw [pySplitlines_cons, if_pos rfl]
      cases hx : pySplitlines cs with
      | nil =>
        have : cs = [] := by
          by_contra hne
          exact pySplitlines_ne_nil hne hx
        subst this
        right; rfl
      | cons y ys =>
        rw [hx] at ih
        rw [joinLines_cons [] (by simp), List.nil_append]
        rcases ih with h | h
        · left; rw [← h]
        · right; rw [h, List.cons_append]
    · rw [pySplitlines_cons, if_neg hc]
      cases hx : pySplitlines cs with
      | nil =>
        have : cs = [] := by
          by_contra hne
          exact pySplitlines_ne_nil hne hx
        subst this
        left; rfl
      | cons y ys =>
        rw [hx] at ih
        cases ys with
        | nil =>
          rcases ih with h | h
          · left
            rw [show joinLines [c :: y] = c :: y from rfl, h,
              show joinLines [y] = y from rfl]
          · right
            rw [show joinLines [c :: y] = c :: y from rfl, h,
              show joinLines [y] = y from rfl]
            rfl
        | cons z zs =>
          rw [joinLines_cons (c :: y) (by simp), joinLines_cons y (by simp)] at *
          rcases ih with h | h
          · left
            rw [h]
            rfl
          · right
            rw [h]
            simp [List.append_assoc]

/-! ## The import filter never leaves an import-prefixed line -/

lemma lineStartsImport_strip_congr {x y : PyStr} (h : pyStrip x = pyStrip y) :
    lineStartsImport x = lineStartsImport y := by
  simp only [lineStartsImport, h]

lemma noImportLines_stripImports (code : PyStr) :
    noImportLines (stripImports code) = true := by
  rw [stripImports, pyStrip]
  set kept := (pySplitlines code).filter (fun l => !lineStartsImport l) with hkept
  have hnf : ∀ l ∈ kept, '\n' ∉ l := by
    intro l hl
    exact no_newline_mem_splitlines (List.mem_of_mem_filter hl)
  have hok : ∀ l ∈ kept, lineStartsImport l = false := by
    intro l hl
    have := List.of_mem_filter hl
    simpa using this
  rw [pyLStrip_joinLines, pyRStrip_joinLines]
  set final := rstripLines (lstripLines kept) with hfinal
  have hmem : ∀ x ∈ final, ∃ y ∈ kept, pyStrip x = pyStrip y := by
    intro x hx
    obtain ⟨m, hm, he1⟩ := mem_rstripLines hx
    obtain ⟨y, hy, he2⟩ := mem_lstripLines hm
    exact ⟨y, hy, he1.trans he2⟩
  have hnf2 : ∀ x ∈ final, '\n' ∉ x :=
    no_newline_rstripLines (no_newline_lstripLines hnf)
  rw [noImportLines, List.all_eq_true]
  intro l hl
  have hmemf : l ∈ final := mem_splitlines_joinLines hnf2 hl
  obtain ⟨y, hy, he⟩ := hmem l hmemf
  rw [Bool.not_eq_true']
  rw [lineStartsImport_strip_congr he]
  exact hok y hy

/-! ## Plan-segmenter lemmas -/

lemma planGo_mem {lines : List PyStr} {buffer : List PyStr} {x : PyStr}
    (h : x ∈ planGo lines buffer) : ∃ b, x = flushStep b := by
  induction lines generalizing buffer with
  | nil =>
    rw [planGo] at h
    by_cases hb : buffer = []
    · simp [hb] at h
    · rw [if_neg hb] at h
      exact ⟨buffer, (List.mem_singleton.mp h)⟩
  | cons line rest ih =>
    rw [planGo] at h
    by_cases hm : stepMarker line
    · rw [if_pos hm] at h
      rcases List.mem_append.mp h with h1 | h2
      · by_cases hb : buffer = []
        · simp [hb] at h1
        · rw [if_neg hb] at h1
          exact ⟨buffer, List.mem_singleton.mp h1⟩
      · exact ih h2
    · rw [if_neg hm] at h
      exact ih h

/-! ## Rounding lemmas -/

lemma pctCentis_eq_roundHalfEven (d : ℤ) (m : ℕ) (hm : 0 < m) :
    pctCentis d m = roundHalfEven (((10000 * d : ℤ) : ℚ) / (m : ℚ)) := by
  have hM : (0 : ℤ) < (m : ℤ) := by exact_mod_cast hm
  have hMQ : (0 : ℚ) < (m : ℚ) := by exact_mod_cast hm
  set n : ℤ := 10000 * d with hn
  set x : ℚ := ((n : ℤ) : ℚ) / (m : ℚ) with hx
  have hfl : ⌊x⌋ = n / (m : ℤ) := Rat.floor_intCast_div_natCast n m
  set q : ℤ := n / (m : ℤ) with hq
  set r : ℤ := n % (m : ℤ) with hr
  have hdivmod : (m : ℤ) * q + r = n := Int.ediv_add_emod n (m : ℤ)
  have hfrac : x - (q : ℚ) = (r : ℚ) / (m : ℚ) := by
    rw [hx, div_sub' _ _ _ (ne_of_gt hMQ)]
    congr 1
    have hcast : (n : ℚ) = (m : ℚ) * (q : ℚ) + (r : ℚ) := by exact_mod_cast hdivmod.symm
    rw [hcast]
    ring
  have hcond1 : (x - (q : ℚ) < 1 / 2) ↔ (2 * r < (m : ℤ)) := by
    rw [hfrac, div_lt_div_iff₀ hMQ (by norm_num : (0 : ℚ) < 2)]
    constructor
    · intro h
      have h2 : (2 : ℚ) * (r : ℚ) < (m : ℚ) := by linarith
      exact_mod_cast h2
    · intro h
      have h2 : (2 : ℚ) * (r : ℚ) < (m : ℚ) := by exact_mod_cast h
      linarith
  have hcond2 : (1 / 2 < x - (q : ℚ)) ↔ ((m : ℤ) < 2 * r) := by
    rw [hfrac, div_lt_div_iff₀ (by norm_num : (0 : ℚ) < 2) hMQ]
    constructor
    · intro h
      have h2 : (m : ℚ) < (2 : ℚ) * (r : ℚ) := by linarith
      exact_mod_cast h2
    · intro h
      have h2 : (m : ℚ) < (2 : ℚ) * (r : ℚ) := by exact_mod_cast h
      linarith
  rw [roundHalfEven, pctCentis]
  simp only [← hn, ← hq, ← hr, ← hx, hfl]
  by_cases h1 : 2 * r < (m : ℤ)
  · rw [if_pos h1, if_pos (hcond1.mpr h1)]
  · rw [if_neg h1, if_neg (fun hc => h1 (hcond1.mp hc))]
    by_cases h2 : (m : ℤ) < 2 * r
    · rw [if_pos h2, if_pos (hcond2.mpr h2)]
    · rw [if_neg h2, if_neg (fun hc => h2 (hcond2.mp hc))]

lemma row_drop_pct_spec (b a : DataFrame) :
    (evaluate_step b a).row_drop_pct =
      round2 (((b.nrows : ℚ) - (a.nrows : ℚ)) / ((max b.nrows 1 : ℕ) : ℚ) * 100) := by
  have hm : 0 < max b.nrows 1 := by omega
  have hMQ : (0 : ℚ) < ((max b.nrows 1 : ℕ) : ℚ) := by exact_mod_cast hm
  show Rat.divInt (pctCentis ((b.nrows : ℤ) - (a.nrows : ℤ)) (max b.nrows 1)) 100 = _
  rw [round2, pctCentis_eq_roundHalfEven _ _ hm, Rat.divInt_eq_div]
  have harg : ((10000 * ((b.nrows : ℤ) - (a.nrows : ℤ)) : ℤ) : ℚ) / ((max b.nrows 1 : ℕ) : ℚ) =
      ((b.nrows : ℚ) - (a.nrows : ℚ)) / ((max b.nrows 1 : ℕ) : ℚ) * 100 * 100 := by
    field_simp
    ring
  rw [harg]
  norm_num

lemma roundHalfEven_nonpos {q : ℚ} (h : q ≤ 0) : roundHalfEven q ≤ 0 := by
  have hf : ⌊q⌋ ≤ 0 := Int.floor_nonpos h
  rw [roundHalfEven]
  split
  · exact hf
  · next h1 =>
    split
    · next h2 =>
      have h3 : (⌊q⌋ : ℚ) < q - 1 / 2 := by linarith
      have h4 : (⌊q⌋ : ℚ) < -(1 / 2 : ℚ) := by linarith
      have h5 : ⌊q⌋ < 0 := by
        by_contra hc
        push_neg at hc
        have : (0 : ℚ) ≤ (⌊q⌋ : ℚ) := by exact_mod_cast hc
        linarith
      omega
    · next h2 =>
      have he : q - (⌊q⌋ : ℚ) = 1 / 2 := le_antisymm (not_lt.mp h2) (not_lt.mp h1)
      have h5 : ⌊q⌋ < 0 := by
        by_contra hc
        push_neg at hc
        have : (0 : ℚ) ≤ (⌊q⌋ : ℚ) := by exact_mod_cast hc
        linarith
      split
      · omega
      · omega

lemma round2_nonpos {q : ℚ} (h : q ≤ 0) : round2 q ≤ 0 := by
  rw [round2]
  apply div_nonpos_of_nonpos_of_nonneg
  · exact_mod_cast roundHalfEven_nonpos (by linarith : q * 100 ≤ 0)
  · norm_num

lemma round2_zero : round2 0 = 0 := by
  norm_num [round2, roundHalfEven]

lemma planGo_no_marker {lines : List PyStr} (buffer : List PyStr)
    (h : ∀ l ∈ lines, stepMarker l = false) :
    planGo lines buffer =
      if buffer ++ lines = [] then [] else [flushStep (buffer ++ lines)] := by
  induction lines generalizing buffer with
  | nil => simp [planGo]
  | cons line rest ih =>
    rw [planGo, if_neg (by simp [h line (List.mem_cons_self line rest)]),
      ih (buffer ++ [line]) (fun l hl => h l (List.mem_cons_of_mem line hl))]
    simp

/-! ## Controller lemmas -/

/-- Unfolded form of one attempt body. -/
lemma attemptOnce_eq (o : Oracle) (st : PyStr) (sn : Nat) (le : Option Feedback)
    (s : ExecutionState) :
    attemptOnce o st sn le s =
      match execute_cleaning_code (o.runCode (generate_code_for_step o st s.df le)) s.df with
      | .error msg =>
        .fail (.execError msg)
          { s.record ⟨sn, s.attempt, .execution_error msg, generate_code_for_step o st s.df le⟩ with
            attempt := s.attempt + 1 }
      | .success after_df _ =>
        if (evaluate_step s.df after_df).row_drop_pct ≤ 10 then
          .ok { s.record ⟨sn, s.attempt, .accepted (evaluate_step s.df after_df),
                  generate_code_for_step o st s.df le⟩ with df := after_df }
        else
          .fail (.rowDropTooHigh (evaluate_step s.df after_df).row_drop_pct)
            { s.record ⟨sn, s.attempt, .rejected (evaluate_step s.df after_df),
                generate_code_for_step o st s.df le⟩ with
              attempt := s.attempt + 1 } := rfl

/-- A failed attempt leaves the dataset, plan and step index unchanged,
increments the attempt counter by one, and appends exactly one history
record for this step and attempt. -/
lemma attemptOnce_fail_state {o : Oracle} {st : PyStr} {sn : Nat} {le : Option Feedback}
    {s : ExecutionState} {err : Feedback} {t : ExecutionState}
    (h : attemptOnce o st sn le s = .fail err t) :
    t.df = s.df ∧ t.plan = s.plan ∧ t.step_index = s.step_index ∧
    t.attempt = s.attempt + 1 ∧
    ∃ rec : HistoryRecord, rec.step = sn ∧ rec.attempt = s.attempt ∧
      t.history = s.history ++ [rec] := by
  rw [attemptOnce_eq] at h
  cases hx : execute_cleaning_code (o.runCode (generate_code_for_step o st s.df le)) s.df with
  | error msg =>
    simp only [hx] at h
    injection h with h1 h2
    subst h2
    exact ⟨rfl, rfl, rfl, rfl, ⟨_, rfl, rfl, rfl⟩⟩
  | success after_df noop =>
    simp only [hx] at h
    by_cases hp : (evaluate_step s.df after_df).row_drop_pct ≤ 10
    · rw [if_pos hp] at h
      cases h
    · rw [if_neg hp] at h
      injection h with h1 h2
      subst h2
      exact ⟨rfl, rfl, rfl, rfl, ⟨_, rfl, rfl, rfl⟩⟩

/-- An accepted attempt keeps the plan, step index and attempt counter,
commits the executor's dataframe, and appends exactly one `accepted`
history record. -/
lemma attemptOnce_ok_state {o : Oracle} {st : PyStr} {sn : Nat} {le : Option Feedback}
    {s : ExecutionState} {s' : ExecutionState}
    (h : attemptOnce o st sn le s = .ok s') :
    s'.plan = s.plan ∧ s'.step_index = s.step_index ∧ s'.attempt = s.attempt ∧
    ∃ rec : HistoryRecord, rec.step = sn ∧ rec.attempt = s.attempt ∧
      s'.history = s.history ++ [rec] := by
  rw [attemptOnce_eq] at h
  cases hx : execute_cleaning_code (o.runCode (generate_code_for_step o st s.df le)) s.df with
  | error msg =>
    simp only [hx] at h
    cases h
  | success after_df noop =>
    simp only [hx] at h
    by_cases hp : (evaluate_step s.df after_df).row_drop_pct ≤ 10
    · rw [if_pos hp] at h
      injection h with h1
      subst h1
      exact ⟨rfl, rfl, rfl, ⟨_, rfl, rfl, rfl⟩⟩
    · rw [if_neg hp] at h
      cases h

/-- A fatal step exit leaves the dataset, plan and step index exactly as
they were when the step loop was entered, only appends to the history,
adds one history record and one attempt increment per consumed unit of
fuel, and reports the fatal message. -/
lemma stepLoopFuel_error {o : Oracle} {st : PyStr} {sn : Nat} :
    ∀ {fuel : Nat} {le : Option Feedback} {s : ExecutionState} {msg : PyStr}
      {s' : ExecutionState},
      stepLoopFuel o st sn fuel le s = .error (msg, s') →
      s'.df = s.df ∧ s'.plan = s.plan ∧ s'.step_index = s.step_index ∧
      s'.attempt = s.attempt + fuel ∧ s'.history.length = s.history.length + fuel ∧
      (∃ tail, s'.history = s.history ++ tail) ∧ msg = fatalMsg sn := by
  intro fuel
  induction fuel with
  | zero =>
    intro le s msg s' h
    rw [stepLoopFuel] at h
    injection h with h1
    injection h1 with h2 h3
    subst h3
    exact ⟨rfl, rfl, rfl, rfl, rfl, ⟨[], (List.append_nil _).symm⟩, h2.symm⟩
  | succ fuel ih =>
    intro le s msg s' h
    rw [stepLoopFuel] at h
    cases hx : attemptOnce o st sn le s with
    | ok t =>
      rw [hx] at h
      cases h
    | fail err t =>
      rw [hx] at h
      obtain ⟨hdf, hplan, hidx, hatt, hlen, ⟨tail, htail⟩, hmsg⟩ := ih h
      obtain ⟨hdf2, hplan2, hidx2, hatt2, ⟨rec, _, _, hrec⟩⟩ := attemptOnce_fail_state hx
      refine ⟨hdf.trans hdf2, hplan.trans hplan2, hidx.trans hidx2, ?_, ?_, ?_, hmsg⟩
      · rw [hatt, hatt2]
        omega
      · rw [hlen, hrec]
        simp
        omega
      · refine ⟨[rec] ++ tail, ?_⟩
        rw [htail, hrec, List.append_assoc]

/-- If no attempt for this step can ever be accepted, the step loop
always exits with the fatal error. -/
lemma stepLoopFuel_all_fail {o : Oracle} {st : PyStr} {sn : Nat}
    (hfail : ∀ le t t', attemptOnce o st sn le t ≠ .ok t') :
    ∀ (fuel : Nat) (le : Option Feedback) (s : ExecutionState),
      ∃ msg s', stepLoopFuel o st sn fuel le s = .error (msg, s') := by
  intro fuel
  induction fuel with
  | zero =>
    intro le s
    exact ⟨fatalMsg sn, s, rfl⟩
  | succ fuel ih =>
    intro le s
    rw [stepLoopFuel]
    cases hx : attemptOnce o st sn le s with
    | ok t => exact absurd hx (hfail le s t)
    | fail err t => exact ih (some err) t

lemma evaluate_step_self_pct (b : DataFrame) : (evaluate_step b b).row_drop_pct = 0 := by
  rw [row_drop_pct_spec, sub_self, zero_div, zero_mul, round2_zero]

/-! ## The claims -/

/-- C3: for every pair of snapshots, the Impact Evaluator's record
satisfies `rows_dropped = rows_before - rows_after` and
`row_drop_pct = round(rows_dropped / max(rows_before, 1) * 100, 2)`
exactly, together with the null counts before/after and their delta and
the column counts before/after.  (`evaluate_step` is a total pure Lean
function, so it never fails and has no side effects on any input,
including empty snapshots.) -/
theorem C3_impact_metrics (b a : DataFrame) :
    (evaluate_step b a).rows_before = b.nrows ∧
    (evaluate_step b a).rows_after = a.nrows ∧
    (evaluate_step b a).rows_dropped =
      ((evaluate_step b a).rows_before : ℤ) - ((evaluate_step b a).rows_after : ℤ) ∧
    (evaluate_step b a).row_drop_pct =
      round2 (((evaluate_step b a).rows_dropped : ℚ) /
        ((max (evaluate_step b a).rows_before 1 : ℕ) : ℚ) * 100) ∧
    (evaluate_step b a).nulls_before = b.nullCount ∧
    (evaluate_step b a).nulls_after = a.nullCount ∧
    (evaluate_step b a).nulls_delta =
      ((evaluate_step b a).nulls_after : ℤ) - ((evaluate_step b a).nulls_before : ℤ) ∧
    (evaluate_step b a).columns_before = b.ncols ∧
    (evaluate_step b a).columns_after = a.ncols := by
  refine ⟨rfl, rfl, rfl, ?_, rfl, rfl, rfl, rfl, rfl⟩
  show (evaluate_step b a).row_drop_pct =
    round2 ((((b.nrows : ℤ) - (a.nrows : ℤ) : ℤ) : ℚ) / ((max b.nrows 1 : ℕ) : ℚ) * 100)
  rw [row_drop_pct_spec]
  congr 1
  push_cast
  ring

/-- C4: the Sandboxed Executor returns an error result if and only if the
evaluated code raised, or the `df` binding is gone afterwards, or it is
bound to a non-dataframe; a raised exception is caught (the result is an
`error` value, not a propagated crash) and its description is preserved
verbatim in the result. -/
theorem C4_executor_error_taxonomy (run : DataFrame → ExecEffect) (df : DataFrame) :
    ((execute_cleaning_code run df).isError = true ↔
      (∃ msg, run df = .raises msg) ∨ run df = .returns none ∨
        run df = .returns (some .other)) ∧
    (∀ msg, run df = .raises msg → execute_cleaning_code run df = .error msg) := by
  constructor
  · cases hx : run df with
    | raises msg => simp [execute_cleaning_code, hx, ExecResult.isError]
    | returns ob =>
      cases ob with
      | none => simp [execute_cleaning_code, hx, ExecResult.isError]
      | some v =>
        cases v with
        | dataframe new_df => simp [execute_cleaning_code, hx, ExecResult.isError]
        | other => simp [execute_cleaning_code, hx, ExecResult.isError]
  · intro msg hmsg
    simp [execute_cleaning_code, hmsg]

/-- Witness for C4 at a concrete raising effect and dataset. -/
theorem C4_executor_error_taxonomy_witness :
    execute_cleaning_code (fun _ => .raises ("boom".toList)) testDf = .error ("boom".toList) :=
  (C4_executor_error_taxonomy (fun _ => .raises ("boom".toList)) testDf).2
    ("boom".toList) rfl

/-- C7: a transformation whose output snapshot equals its input is
reported by the executor as a success with the `noop` flag set, and the
controller accepts it (its row-drop percentage is 0 ≤ 10), committing the
(unchanged) dataset rather than rejecting. -/
theorem C7_noop_accepted :
    (∀ (run : DataFrame → ExecEffect) (df : DataFrame),
      run df = .returns (some (.dataframe df)) →
      execute_cleaning_code run df = .success df true) ∧
    (∀ (o : Oracle) (st : PyStr) (sn : Nat) (le : Option Feedback) (s : ExecutionState)
        (noop : Bool),
      execute_cleaning_code (o.runCode (generate_code_for_step o st s.df le)) s.df =
        .success s.df noop →
      ∃ s', attemptOnce o st sn le s = .ok s' ∧ s'.df = s.df) := by
  constructor
  · intro run df h
    simp [execute_cleaning_code, h]
  · intro o st sn le s noop h
    have hp : (evaluate_step s.df s.df).row_drop_pct ≤ 10 := by
      rw [evaluate_step_self_pct]
      norm_num
    rw [attemptOnce_eq]
    simp only [h, if_pos hp]
    exact ⟨_, rfl, rfl⟩

/-- Witness for C7: the identity effect on `testDf` is a flagged no-op
success, and the controller accepts it. -/
theorem C7_noop_accepted_witness :
    execute_cleaning_code (noopOracle.runCode
        (generate_code_for_step noopOracle stepTextX testDf none)) testDf =
      .success testDf true ∧
    ∃ s', attemptOnce noopOracle stepTextX 1 none
        (ExecutionState.init testDf [stepTextX]) = .ok s' ∧
      s'.df = (ExecutionState.init testDf [stepTextX]).df :=
  ⟨C7_noop_accepted.1 _ testDf rfl,
    C7_noop_accepted.2 noopOracle stepTextX 1 none
      (ExecutionState.init testDf [stepTextX]) true (by decide)⟩

/-- C1: within a step, an attempt is accepted — the executor's dataframe
committed, an `accepted` record appended, the cursor untouched — if and
only if the executor reports success and the evaluated `row_drop_pct` is
at most 10; an execution error or a `row_drop_pct` above 10 yields a
`fail` outcome whose state keeps the dataset (the `record` update touches
only `history`), appends the rejection record and increments the attempt
counter; and on step-loop success the outer loop advances the step. -/
theorem C1_acceptance_policy (o : Oracle) (st : PyStr) (sn : Nat) (le : Option Feedback)
    (s : ExecutionState) :
    (∀ s', attemptOnce o st sn le s = .ok s' →
      ∃ after_df noop,
        execute_cleaning_code (o.runCode (generate_code_for_step o st s.df le)) s.df =
          .success after_df noop ∧
        (evaluate_step s.df after_df).row_drop_pct ≤ 10 ∧
        s'.df = after_df ∧ s'.step_index = s.step_index ∧ s'.attempt = s.attempt ∧
        s'.history = s.history ++
          [⟨sn, s.attempt, .accepted (evaluate_step s.df after_df),
            generate_code_for_step o st s.df le⟩]) ∧
    (∀ after_df noop,
      execute_cleaning_code (o.runCode (generate_code_for_step o st s.df le)) s.df =
        .success after_df noop →
      (evaluate_step s.df after_df).row_drop_pct ≤ 10 →
      ∃ s', attemptOnce o st sn le s = .ok s' ∧ s'.df = after_df) ∧
    (∀ msg,
      execute_cleaning_code (o.runCode (generate_code_for_step o st s.df le)) s.df =
        .error msg →
      attemptOnce o st sn le s =
        .fail (.execError msg)
          { s.record ⟨sn, s.attempt, .execution_error msg,
              generate_code_for_step o st s.df le⟩ with
            attempt := s.attempt + 1 }) ∧
    (∀ after_df noop,
      execute_cleaning_code (o.runCode (generate_code_for_step o st s.df le)) s.df =
        .success after_df noop →
      ¬ (evaluate_step s.df after_df).row_drop_pct ≤ 10 →
      attemptOnce o st sn le s =
        .fail (.rowDropTooHigh (evaluate_step s.df after_df).row_drop_pct)
          { s.record ⟨sn, s.attempt, .rejected (evaluate_step s.df after_df),
              generate_code_for_step o st s.df le⟩ with
            attempt := s.attempt + 1 }) ∧
    (∀ (fuel : Nat) (s₀ s' : ExecutionState),
      stepLoop o s₀.current_step (s₀.step_index + 1) s₀ = .ok s' →
      runStepsFuel o (fuel + 1) s₀ = runStepsFuel o fuel s'.advance_step ∧
      s'.advance_step.step_index = s'.step_index + 1) := by
  refine ⟨?_, ?_, ?_, ?_, ?_⟩
  · intro s' h
    rw [attemptOnce_eq] at h
    cases hx : execute_cleaning_code (o.runCode (generate_code_for_step o st s.df le)) s.df with
    | error msg =>
      simp only [hx] at h
      cases h
    | success after_df noop =>
      simp only [hx] at h
      by_cases hp : (evaluate_step s.df after_df).row_drop_pct ≤ 10
      · rw [if_pos hp] at h
        injection h with h1
        subst h1
        exact ⟨after_df, noop, rfl, hp, rfl, rfl, rfl, rfl⟩
      · rw [if_neg hp] at h
        cases h
  · intro after_df noop hx hp
    rw [attemptOnce_eq]
    simp only [hx, if_pos hp]
    exact ⟨_, rfl, rfl⟩
  · intro msg hx
    rw [attemptOnce_eq]
    simp only [hx]
  · intro after_df noop hx hp
    rw [attemptOnce_eq]
    simp only [hx, if_neg hp]
  · intro fuel s₀ s' h
    refine ⟨?_, rfl⟩
    rw [runStepsFuel, h]

/-- Witness for C1: the no-op oracle's attempt on `testDf` is accepted
(row drop 0 ≤ 10), and the raising oracle's attempt is recorded as an
execution error with the attempt counter moved from 1 to 2. -/
theorem C1_acceptance_policy_witness :
    (∃ s', attemptOnce noopOracle stepTextX 1 none
        (ExecutionState.init testDf [stepTextX]) = .ok s' ∧ s'.df = testDf) ∧
    attemptOnce raiseOracle stepTextX 1 none (ExecutionState.init testDf [stepTextX]) =
      .fail (.execError ("boom".toList))
        { (ExecutionState.init testDf [stepTextX]).record
            ⟨1, 1, .execution_error ("boom".toList),
              generate_code_for_step raiseOracle stepTextX testDf none⟩ with
          attempt := 2 } :=
  ⟨(C1_acceptance_policy noopOracle stepTextX 1 none
      (ExecutionState.init testDf [stepTextX])).2.1 testDf true (by decide) (by decide),
    (C1_acceptance_policy raiseOracle stepTextX 1 none
      (ExecutionState.init testDf [stepTextX])).2.2.1 ("boom".toList) (by decide)⟩

/-- C9: the attempt counter starts at 1; a failed attempt (rejection or
execution error) increments it by one and leaves `step_index` unchanged;
an accepted attempt leaves both unchanged (the reset happens in
`advance_step`); and `advance_step` — the only operation that moves
`step_index` — advances it by one and resets the counter to 1. -/
theorem C9_attempt_counter :
    (∀ (df : DataFrame) (plan : List PyStr),
      (ExecutionState.init df plan).attempt = 1 ∧
      (ExecutionState.init df plan).step_index = 0) ∧
    (∀ s : ExecutionState,
      s.advance_step.step_index = s.step_index + 1 ∧ s.advance_step.attempt = 1) ∧
    (∀ (o : Oracle) (st : PyStr) (sn : Nat) (le : Option Feedback)
        (s : ExecutionState) (err : Feedback) (t : ExecutionState),
      attemptOnce o st sn le s = .fail err t →
      t.attempt = s.attempt + 1 ∧ t.step_index = s.step_index) ∧
    (∀ (o : Oracle) (st : PyStr) (sn : Nat) (le : Option Feedback)
        (s s' : ExecutionState),
      attemptOnce o st sn le s = .ok s' →
      s'.attempt = s.attempt ∧ s'.step_index = s.step_index) := by
  refine ⟨fun df plan => ⟨rfl, rfl⟩, fun s => ⟨rfl, rfl⟩, ?_, ?_⟩
  · intro o st sn le s err t h
    obtain ⟨_, _, hidx, hatt, _⟩ := attemptOnce_fail_state h
    exact ⟨hatt, hidx⟩
  · intro o st sn le s s' h
    obtain ⟨_, hidx, hatt, _⟩ := attemptOnce_ok_state h
    exact ⟨hatt, hidx⟩

/-- Witness for C9 at the raising and the no-op oracle. -/
theorem C9_attempt_counter_witness :
    ((ExecutionState.init testDf [stepTextX]).attempt = 1 ∧
      (ExecutionState.init testDf [stepTextX]).step_index = 0) ∧
    (∃ t, attemptOnce raiseOracle stepTextX 1 none
        (ExecutionState.init testDf [stepTextX]) = .fail (.execError ("boom".toList)) t ∧
      t.attempt = 2 ∧ t.step_index = 0) := by
  refine ⟨C9_attempt_counter.1 testDf [stepTextX], ?_⟩
  have h : attemptOnce raiseOracle stepTextX 1 none (ExecutionState.init testDf [stepTextX]) =
      .fail (.execError ("boom".toList))
        { (ExecutionState.init testDf [stepTextX]).record
            ⟨1, 1, .execution_error ("boom".toList),
              generate_code_for_step raiseOracle stepTextX testDf none⟩ with
          attempt := 2 } := by decide
  obtain ⟨hatt, hidx⟩ :=
    C9_attempt_counter.2.2.1 raiseOracle stepTextX 1 none
      (ExecutionState.init testDf [stepTextX]) (.execError ("boom".toList)) _ h
  exact ⟨_, h, hatt, hidx⟩

/-- C2: whenever the attempt loop for a step exits fatally, the state at
the raise carries the same dataset (so the datasets committed by prior
accepted steps are untouched), the same step index and an extended (never
rewritten) history, and the message is the fatal one; a step none of
whose attempts can be accepted always exits fatally, after exactly
`MAX_RETRIES` attempts when entered with the counter at 1; and a fatal
run returns no final state, so nothing is persisted. -/
theorem C2_fatal_step_failure :
    (∀ (o : Oracle) (st : PyStr) (sn fuel : Nat) (le : Option Feedback)
        (s : ExecutionState) (msg : PyStr) (s' : ExecutionState),
      stepLoopFuel o st sn fuel le s = .error (msg, s') →
      s'.df = s.df ∧ s'.step_index = s.step_index ∧
      (∃ tail, s'.history = s.history ++ tail) ∧ msg = fatalMsg sn) ∧
    (∀ (o : Oracle) (st : PyStr) (sn : Nat) (s : ExecutionState),
      (∀ le t t', attemptOnce o st sn le t ≠ .ok t') →
      s.attempt = 1 →
      ∃ msg s', stepLoop o st sn s = .error (msg, s') ∧
        s'.attempt = MAX_RETRIES + 1 ∧
        s'.history.length = s.history.length + MAX_RETRIES) ∧
    (∀ (o : Oracle) (df : DataFrame) (pt : PyStr) (e : PyStr × ExecutionState),
      run_execution_agent o df pt = .error e →
      ∀ sF, run_execution_agent o df pt ≠ .ok sF) := by
  refine ⟨?_, ?_, ?_⟩
  · intro o st sn fuel le s msg s' h
    obtain ⟨hdf, _, hidx, _, _, htail, hmsg⟩ := stepLoopFuel_error h
    exact ⟨hdf, hidx, htail, hmsg⟩
  · intro o st sn s hfail hatt
    obtain ⟨msg, s', h⟩ := stepLoopFuel_all_fail hfail (MAX_RETRIES + 1 - s.attempt) none s
    obtain ⟨_, _, _, hatt', hlen, _, _⟩ := stepLoopFuel_error h
    refine ⟨msg, s', h, ?_, ?_⟩
    · rw [hatt', hatt]
      omega
    · rw [hlen, hatt]
      omega
  · intro o df pt e h sF hc
    rw [h] at hc
    cases hc

/-- Witness for C2: with the always-raising oracle, the step loop entered
at attempt 1 on `testDf` fails fatally, with the counter at 6 and five
history records. -/
theorem C2_fatal_step_failure_witness :
    ∃ msg s', stepLoop raiseOracle stepTextX 1 (ExecutionState.init testDf [stepTextX]) =
        .error (msg, s') ∧
      s'.attempt = MAX_RETRIES + 1 ∧
      s'.history.length = (ExecutionState.init testDf [stepTextX]).history.length +
        MAX_RETRIES :=
  C2_fatal_step_failure.2.1 raiseOracle stepTextX 1 (ExecutionState.init testDf [stepTextX])
    (by
      intro le t t'
      rw [attemptOnce_eq]
      simp [execute_cleaning_code, raiseOracle])
    rfl

/-- C10: the acceptance decision looks only at row counts — a successful
execution whose output has at least as many rows as the input is always
accepted, no matter how many columns were dropped or how many missing
values were introduced, and `row_drop_pct` is a function of the two row
counts alone. -/
theorem C10_acceptance_row_count_only :
    (∀ (o : Oracle) (st : PyStr) (sn : Nat) (le : Option Feedback)
        (s : ExecutionState) (after_df : DataFrame) (noop : Bool),
      execute_cleaning_code (o.runCode (generate_code_for_step o st s.df le)) s.df =
        .success after_df noop →
      s.df.nrows ≤ after_df.nrows →
      ∃ s', attemptOnce o st sn le s = .ok s' ∧ s'.df = after_df) ∧
    (∀ b a b' a' : DataFrame, b.nrows = b'.nrows → a.nrows = a'.nrows →
      (evaluate_step b a).row_drop_pct = (evaluate_step b' a').row_drop_pct) := by
  constructor
  · intro o st sn le s after_df noop hx hrows
    have hMQ : (0 : ℚ) < ((max s.df.nrows 1 : ℕ) : ℚ) := by
      have : (0 : ℕ) < max s.df.nrows 1 := by omega
      exact_mod_cast this
    have hp : (evaluate_step s.df after_df).row_drop_pct ≤ 10 := by
      rw [row_drop_pct_spec]
      have harg : ((s.df.nrows : ℚ) - (after_df.nrows : ℚ)) /
          ((max s.df.nrows 1 : ℕ) : ℚ) * 100 ≤ 0 := by
        apply mul_nonpos_of_nonpos_of_nonneg _ (by norm_num)
        apply div_nonpos_of_nonpos_of_nonneg _ (le_of_lt hMQ)
        have : (s.df.nrows : ℚ) ≤ (after_df.nrows : ℚ) := by exact_mod_cast hrows
        linarith
      have := round2_nonpos harg
      linarith
    rw [attemptOnce_eq]
    simp only [hx, if_pos hp]
    exact ⟨_, rfl, rfl⟩
  · intro b a b' a' hb ha
    show Rat.divInt (pctCentis ((b.nrows : ℤ) - (a.nrows : ℤ)) (max b.nrows 1)) 100 =
      Rat.divInt (pctCentis ((b'.nrows : ℤ) - (a'.nrows : ℤ)) (max b'.nrows 1)) 100
    rw [hb, ha]

/-- Witness for C10: `growOracle` drops a column of `testDf` and fills
everything with missing values, but returns four rows for three, so the
attempt is accepted; and the pct of (`testDf`, `testDfDropped`) depends
only on the row counts 3 and 2. -/
theorem C10_acceptance_row_count_only_witness :
    (∃ s', attemptOnce growOracle stepTextX 1 none
        (ExecutionState.init testDf [stepTextX]) = .ok s' ∧ s'.df = grownDf) ∧
    (evaluate_step testDf testDfDropped).row_drop_pct =
      (evaluate_step ⟨[], [[], [], []]⟩ ⟨["z"], [[some 9], [some 9]]⟩).row_drop_pct :=
  ⟨C10_acceptance_row_count_only.1 growOracle stepTextX 1 none
      (ExecutionState.init testDf [stepTextX]) grownDf false (by decide) (by decide),
    C10_acceptance_row_count_only.2 testDf testDfDropped ⟨[], [[], [], []]⟩
      ⟨["z"], [[some 9], [some 9]]⟩ (by decide) (by decide)⟩

/-- C6 counterexample: on the text `"\nStep fix things"` the claim
predicts a single step (its only would-be marker line has no number
after `Step`, so under the claim's marker rule the text has no markers)
and that every returned step is non-empty; `load_plan_text` instead
returns two steps — the marker test is only `strip().startswith("Step ")`
— and the first of them is the empty string, flushed from the buffer
holding only the blank first line. -/
theorem C6_counterexample :
    load_plan_text ("\nStep fix things".toList) = [[], "Step fix things".toList] ∧
    [] ∈ load_plan_text ("\nStep fix things".toList) ∧
    (load_plan_text ("\nStep fix things".toList)).length ≠ 1 := by
  refine ⟨by decide, ?_, by decide⟩
  decide

/-- C6 amended: the Plan Segmenter returns an ordered sequence of step
strings, each trimmed (though possibly empty, when a marker line is
preceded only by whitespace lines); a new step begins at each line whose
whitespace-stripped form starts with the case-sensitive token `"Step "`
(no following number is required); an empty text yields the empty
sequence; a text with no marker lines yields the single step holding the
entire text trimmed; and the spec's two-marker example segments into
exactly its two steps, each containing its marker line and body. -/
theorem C6_segmenter_amended :
    (∀ text : PyStr, ∀ step ∈ load_plan_text text, pyStrip step = step) ∧
    load_plan_text [] = [] ∧
    (∀ text : PyStr, text ≠ [] →
      (∀ l ∈ pySplitlines text, stepMarker l = false) →
      load_plan_text text = [pyStrip text]) ∧
    load_plan_text ("Step 1: Fix nulls\nDo X\nStep 2: Drop dupes\nDo Y".toList) =
      ["Step 1: Fix nulls\nDo X".toList, "Step 2: Drop dupes\nDo Y".toList] := by
  refine ⟨?_, rfl, ?_, by decide⟩
  · intro text step h
    obtain ⟨b, rfl⟩ := planGo_mem h
    exact pyStrip_idem (joinLines b)
  · intro text hne hnm
    rw [load_plan_text, planGo_no_marker [] hnm, List.nil_append,
      if_neg (pySplitlines_ne_nil hne)]
    rw [flushStep]
    rcases joinLines_pySplitlines text with h | h
    · conv_rhs => rw [h]
    · conv_rhs => rw [h, pyStrip_append_newline]

/-- Witness for C6 at a concrete marker-free text. -/
theorem C6_segmenter_amended_witness :
    pyStrip ("no markers here".toList) = "no markers here".toList ∧
    load_plan_text ("no markers here".toList) = [pyStrip ("no markers here".toList)] :=
  ⟨C6_segmenter_amended.1 ("no markers here".toList) ("no markers here".toList)
      (by decide),
    C6_segmenter_amended.2.2.1 ("no markers here".toList) (by decide) (by decide)⟩

/-- C8 counterexample: the sanitiser's filter tests only
`line.strip().startswith("import")`, so the import statement
`from os import system` — which the claim says is removed — passes
through `sanitizeCode` untouched. -/
theorem C8_counterexample :
    isImportStatement ("from os import system".toList) = true ∧
    lineStartsImport ("from os import system".toList) = false ∧
    sanitizeCode ("from os import system\ndf = df".toList) =
      "from os import system\ndf = df".toList := by
  refine ⟨by decide, by decide, by decide⟩

/-- C8 amended: for every response text, the sanitiser strips the
markdown fencing and a leading `python` language tag and removes every
line that begins, after leading whitespace, with `import` — no line of
the delivered code has a stripped form starting with `import`
(`from ... import ...` lines, however, are not removed, as the
counterexample shows); the concrete conjunct exercises the fence and
language-tag stripping. -/
theorem C8_sanitizer_amended :
    (∀ content : PyStr, noImportLines (sanitizeCode content) = true) ∧
    sanitizeCode ("```python\nimport pandas as pd\ndf = df.dropna()\n```".toList) =
      "df = df.dropna()".toList := by
  constructor
  · intro content
    rw [sanitizeCode]
    exact noImportLines_stripImports _
  · decide

end LLMDS
